import Mathlib

/-!
Shallow embedding of the parsing/normalization core of the `sysinfo`
package (file `sysinfo.go`): the key/value line scanner `scanProc`, the
primitive parsers (`atoi`, `parseBool`, `split`), the composite-field
decoders (`parseSize`, `parseAddrSizes`, `parseTLB`) and the vendor/part
name tables (`CPU.Name` and the per-vendor `*PartName` functions).

Go strings are modelled as `List Char`.  All the byte-level operations the
source uses (`strings.IndexByte`, `strings.Index`, `strings.HasSuffix`,
slicing) only ever search for ASCII bytes, which in valid UTF-8 can occur
only at character boundaries, so character-level indices and byte-level
indices delimit the same substrings and the character-list model is exact.

Go's `int` is modelled as `Int` together with explicit two's-complement
wrapping (`wrap64`) where the source performs conversions or arithmetic
that can overflow a 64-bit machine word (`bits.UintSize = 64`).
-/

namespace Sysinfo

/-- Go strings as lists of characters. -/
abbrev GoStr := List Char

/-- Build a `GoStr` from a Lean string literal. -/
def gs (s : String) : GoStr := s.toList

/-- `unicode.IsSpace` restricted to the code points Go's table contains:
the ASCII spaces `\t \n \v \f \r ' '`, NEL, NBSP and the Unicode
`White_Space` code points. -/
def isSpaceGo (c : Char) : Bool :=
  let n := c.toNat
  n == 32 || n == 9 || n == 10 || n == 11 || n == 12 || n == 13 ||
  n == 0x85 || n == 0xA0 || n == 0x1680 ||
  (decide (0x2000 ≤ n) && decide (n ≤ 0x200A)) ||
  n == 0x2028 || n == 0x2029 || n == 0x202F || n == 0x205F || n == 0x3000

/-- `strings.TrimSpace`: drop leading and trailing white space. -/
def trimSpace (s : GoStr) : GoStr :=
  ((s.dropWhile isSpaceGo).reverse.dropWhile isSpaceGo).reverse

/-- `strconv`'s `lower(c) = c | ('x' - 'X')`: fold an ASCII letter to
lower case by setting bit 5. -/
def lowerC (c : Char) : Char := Char.ofNat (c.toNat ||| 0x20)

/-- The digit-decoding switch inside `strconv.ParseUint`'s loop:
`'0'..'9'` yield their value, letters (case-folded) yield `10..35`,
everything else is a syntax error (`none`).  The separate `d >= base`
check of the source is kept at the call site. -/
def goDigit (c : Char) : Option Nat :=
  if decide ('0' ≤ c) && decide (c ≤ '9') then some (c.toNat - 48)
  else if decide ('a' ≤ lowerC c) && decide (lowerC c ≤ 'z') then
    some ((lowerC c).toNat - 97 + 10)
  else none

/-- The digit loop of `strconv.ParseUint(s, base, 64)`.  Returns the
result value together with a flag telling whether the loop ran to
completion without a syntax/range error and whether underscores were
seen.  On a syntax error the value is `0`, on a range error it is
`maxVal`, exactly as in the source. -/
def puLoop (base : Nat) (base0 : Bool) (maxVal cutoff : Nat) :
    List Char → Nat → Bool → Nat × Bool × Bool
  | [], n, saw => (n, true, saw)
  | c :: cs, n, saw =>
    if c = '_' ∧ base0 then puLoop base base0 maxVal cutoff cs n true
    else
      match goDigit c with
      | none => (0, false, saw)
      | some d =>
        if base ≤ d then (0, false, saw)
        else if cutoff ≤ n then (maxVal, false, saw)
        else
          let n1 := n * base + d
          if maxVal < n1 then (maxVal, false, saw)
          else puLoop base base0 maxVal cutoff cs n1 saw

/-- The scanning loop of `strconv`'s `underscoreOK`: `saw` tracks the
class of the previous character (`'^'` start, `'0'` digit or base
prefix, `'_'` underscore, `'!'` other). -/
def uOKLoop (hex : Bool) : List Char → Char → Bool
  | [], saw => saw ≠ '_'
  | c :: cs, saw =>
    if (decide ('0' ≤ c) && decide (c ≤ '9')) ||
       (hex && decide ('a' ≤ lowerC c) && decide (lowerC c ≤ 'f')) then
      uOKLoop hex cs '0'
    else if c = '_' then
      if saw ≠ '0' then false else uOKLoop hex cs '_'
    else if saw = '_' then false
    else uOKLoop hex cs '!'

/-- `strconv.underscoreOK`: underscores must separate successive digits
(the base prefix counting as a digit). -/
def underscoreOK (s : List Char) : Bool :=
  let s1 := match s with
    | c :: rest => if c = '-' ∨ c = '+' then rest else s
    | [] => s
  match s1 with
  | c0 :: c1 :: rest =>
    if c0 = '0' ∧ (lowerC c1 = 'b' ∨ lowerC c1 = 'o' ∨ lowerC c1 = 'x') then
      uOKLoop (lowerC c1 = 'x') rest '0'
    else uOKLoop false s1 '^'
  | _ => uOKLoop false s1 '^'

/-- The base-0 prefix resolution of `strconv.ParseUint`: a leading `0`
selects binary/octal/hex for `0b`/`0o`/`0x` (when at least one digit
follows, i.e. `len(s) >= 3`) and octal otherwise; no prefix means
decimal. -/
def goBasePrefix (s : List Char) : Nat × List Char :=
  match s with
  | c0 :: rest =>
    if c0 = '0' then
      match rest with
      | c2 :: rest2 =>
        if 3 ≤ s.length ∧ lowerC c2 = 'b' then (2, rest2)
        else if 3 ≤ s.length ∧ lowerC c2 = 'o' then (8, rest2)
        else if 3 ≤ s.length ∧ lowerC c2 = 'x' then (16, rest2)
        else (8, rest)
      | [] => (8, rest)
    else (10, s)
  | [] => (10, s)

/-- The value returned by `strconv.ParseUint(s, 0, 64)` with the error
discarded: `0` on a syntax error, `2^64 - 1` on a range error, the
parsed value otherwise. -/
def parseUint0 (s : List Char) : Nat :=
  if s = [] then 0
  else
    let p := goBasePrefix s
    let maxVal := 2 ^ 64 - 1
    let cutoff := (2 ^ 64 - 1) / p.1 + 1
    let r := puLoop p.1 true maxVal cutoff p.2 0 false
    if r.2.1 ∧ r.2.2 ∧ ¬ underscoreOK s then 0 else r.1

/-- Two's-complement wrapping of an unbounded integer into Go's 64-bit
`int`. -/
def wrap64 (x : Int) : Int := (x + 2 ^ 63) % 2 ^ 64 - 2 ^ 63

/-- `atoi`: `x, _ := strconv.ParseUint(s, 0, 64); return int(x)`.
The `uint64 → int` conversion reinterprets the bits, i.e. wraps into
`[-2^63, 2^63)`. -/
def atoi (s : GoStr) : Int := wrap64 (parseUint0 s)

/-- `parseBool`: the literal `"yes"` is true, everything else false. -/
def parseBool (s : GoStr) : Bool := s = gs "yes"

/-- `split`: key is the trimmed text before the first `':'` (empty when
there is none), value is the trimmed text after it (the whole trimmed
line when there is no colon, because `i+1 = 0 < len(s)` in the source). -/
def split (s : GoStr) : GoStr × GoStr :=
  match s.findIdx? (· = ':') with
  | some i =>
    (trimSpace (s.take i),
     if i + 1 < s.length then trimSpace (s.drop (i + 1)) else [])
  | none => ([], if 0 < s.length then trimSpace s else [])

/-- `strings.Index`: position of the first occurrence of `sep` as a
substring, `none` standing for Go's `-1`. -/
def firstIdxOfSub (sep : GoStr) : GoStr → Option Nat
  | [] => if sep = [] then some 0 else none
  | c :: cs =>
    if sep.isPrefixOf (c :: cs) then some 0
    else (firstIdxOfSub sep cs).map (· + 1)

/-- `strings.HasSuffix`. -/
def hasSuffixL (suf s : GoStr) : Bool := suf.isSuffixOf s

/-- `strings.TrimSuffix`: drop `suf` when present, else return `s`. -/
def trimSuffixL (suf s : GoStr) : GoStr :=
  if hasSuffixL suf s then s.take (s.length - suf.length) else s

/-- `parseSize`: `"<n> KB"` → `n*1024`, `"<n> MB"` → `n*1024*1024`,
anything else → `0`.  The multiplications `x *= 1024` happen on Go
`int`s, hence the explicit wrap. -/
def parseSize (s : GoStr) : Int :=
  match s.findIdx? (· = ' ') with
  | none => 0
  | some i =>
    if i = s.length then 0
    else
      let x := atoi (s.take i)
      let unit := s.drop (i + 1)
      if unit = gs "KB" then wrap64 (x * 1024)
      else if unit = gs "MB" then wrap64 (x * (1024 * 1024))
      else 0

/-- `parseAddrSizes`: requires the `", "` separator (not at the very
end) and the two literal suffixes, else `(0, 0)`. -/
def parseAddrSizes (s : GoStr) : Int × Int :=
  let sep := gs ", "
  match firstIdxOfSub sep s with
  | none => (0, 0)
  | some i =>
    if i + sep.length = s.length then (0, 0)
    else
      let lhs := s.take i
      let rhs := s.drop (i + sep.length)
      if ¬ hasSuffixL (gs " bits physical") lhs then (0, 0)
      else
        let lhs1 := trimSuffixL (gs " bits physical") lhs
        if ¬ hasSuffixL (gs " bits virtual") rhs then (0, 0)
        else
          let rhs1 := trimSuffixL (gs " bits virtual") rhs
          (atoi lhs1, atoi rhs1)

/-- `parseTLB`: strip the `" pages"` suffix, read the `K`/`M` unit off
the end, split at the first space; `(0, 0)` when any step fails.  The
`atoi(...) * unit` product is a Go `int` multiplication, hence the
wrap. -/
def parseTLB (s : GoStr) : Int × Int :=
  if ¬ hasSuffixL (gs " pages") s then (0, 0)
  else
    let s1 := trimSuffixL (gs " pages") s
    let unit? : Option Nat :=
      if hasSuffixL (gs "K") s1 then some 1024
      else if hasSuffixL (gs "M") s1 then some (1024 * 1024)
      else none
    match unit? with
    | none => (0, 0)
    | some unit =>
      let s2 := s1.take (s1.length - 1)
      match s2.findIdx? (· = ' ') with
      | none => (0, 0)
      | some i =>
        if i = s2.length then (0, 0)
        else (atoi (s2.take i), wrap64 (atoi (s2.drop (i + 1)) * (unit : Int)))

/-! ### Implementer and part codes

`Implementer` is a `uint8` in the source and `Part` a `uint16`; both are
modelled as `Nat` with the wrapping conversions made explicit where
`scanProc` builds them from `atoi` results. -/

def ARMLtd : Nat := 0x41
def Broadcom : Nat := 0x42
def Cavium : Nat := 0x43
def Fujitsu : Nat := 0x46
def NVIDIA : Nat := 0x4e
def HiSilicon : Nat := 0x48
def Qualcomm : Nat := 0x51
def Samsung : Nat := 0x53
def Intel : Nat := 0x69
def Apple : Nat := 0x61

/-- `armPartName`: the ARM Ltd part table. -/
def armPartName (p : Nat) : String :=
  if p = 0x926 then "ARM926EJ-S"
  else if p = 0xb02 then "ARM11 MPCore"
  else if p = 0xb36 then "ARM1136J-S"
  else if p = 0xb56 then "ARM1156T2-S"
  else if p = 0xb76 then "ARM1176JZ-S"
  else if p = 0xc08 then "Cortex-A8"
  else if p = 0xc09 then "Cortex-A9"
  else if p = 0xc0f then "Cortex-A15"
  else if p = 0xc20 then "Cortex-M0"
  else if p = 0xc23 then "Cortex-M3"
  else if p = 0xc24 then "Cortex-M4"
  else if p = 0xd22 then "Cortex-M55"
  else if p = 0xd02 then "Cortex-A34"
  else if p = 0xd04 then "Cortex-A35"
  else if p = 0xd03 then "Cortex-A53"
  else if p = 0xd05 then "Cortex-A55"
  else if p = 0xd07 then "Cortex-A57"
  else if p = 0xd08 then "Cortex-A72"
  else if p = 0xd09 then "Cortex-A73"
  else if p = 0xd0a then "Cortex-A75"
  else if p = 0xd0b then "Cortex-A76"
  else if p = 0xd0d then "Cortex-A77"
  else if p = 0xd41 then "Cortex-A78"
  else if p = 0xd44 then "Cortex-X1"
  else if p = 0xd4c then "Cortex-X1C"
  else if p = 0xd0c then "neoverse-n1"
  else if p = 0xd49 then "neoverse-n2"
  else if p = 0xd40 then "neoverse-v1"
  else if p = 0x23 then "M1 Firestorm"
  else if p = 0x22 then "M1 Icestorm"
  else "generic"

/-- `broadcomPartName`: shared Broadcom/Cavium part table. -/
def broadcomPartName (p : Nat) : String :=
  if p = 0x516 ∨ p = 0xaf then "ThunderX2T99"
  else if p = 0xa1 then "ThunderXT88"
  else "generic"

/-- `fujitsuPartName`. -/
def fujitsuPartName (p : Nat) : String :=
  if p = 0x001 then "A64FX" else "generic"

/-- `nvidiaPartName`. -/
def nvidiaPartName (p : Nat) : String :=
  if p = 0x004 then "Carmel" else "generic"

/-- `hiSiliconPartName`. -/
def hiSiliconPartName (p : Nat) : String :=
  if p = 0xd01 then "TSV110" else "generic"

/-- `qualcommPartName`: note the many-to-one Kryo families. -/
def qualcommPartName (p : Nat) : String :=
  if p = 0x06f then "Krait"
  else if p = 0x201 ∨ p = 0x205 ∨ p = 0x211 then "Kryo"
  else if p = 0x800 ∨ p = 0x801 then "Cortex-A73"
  else if p = 0x802 ∨ p = 0x803 then "Cortex-A75"
  else if p = 0x804 ∨ p = 0x805 then "Cortex-A76"
  else if p = 0xc00 then "Falkor"
  else if p = 0xc01 then "Saphira"
  else "generic"

/-- `samsungPartName`: an empty table, every part is `"generic"`. -/
def samsungPartName (_p : Nat) : String := "generic"

/-! ### Data model -/

/-- Stand-in for Go `float64` values produced by `atof`
(`strconv.ParseFloat`): no claim concerns float arithmetic, so the float
denotation is tracked as the raw text handed to the parser. -/
structure GoFloat where
  raw : GoStr
deriving DecidableEq, Repr

/-- `atof` (value tracked symbolically, see `GoFloat`). -/
def atof (s : GoStr) : GoFloat := ⟨s⟩

/-- `strings.Split(s, " ")`. -/
def splitSpace (s : GoStr) : List GoStr := s.splitOn ' '

/-- The `Cache` struct. -/
structure Cache where
  Inst : Int := 0
  L1 : Int := 0
  L2 : Int := 0
  L3 : Int := 0
  Alignment : Int := 0
  Flush : Int := 0
deriving DecidableEq, Repr

/-- The `CPU` struct: one record per logical processor, all fields at
their Go zero values by default.  `Impl` is the `uint8` implementer
code and `Part` the `uint16` part code. -/
structure CPU where
  Proc : Int := 0
  BogoMIPS : GoFloat := ⟨[]⟩
  Features : List GoStr := []
  Rev : Int := 0
  ModelName : GoStr := []
  MicroArch : GoStr := []
  Impl : Nat := 0
  Arch : Int := 0
  Variant : Int := 0
  Part : Nat := 0
  VendorID : GoStr := []
  Family : Int := 0
  Model : Int := 0
  Microcode : Int := 0
  Freq : GoFloat := ⟨[]⟩
  Cache : Cache := {}
  PhysID : Int := 0
  Siblings : Int := 0
  CoreID : Int := 0
  Cores : Int := 0
  APICID : Int := 0
  InitAPICID : Int := 0
  FPU : Bool := false
  FPUExceptions : Bool := false
  CPUIDLevel : Int := 0
  WP : Bool := false
  Bugs : List GoStr := []
  AddrSizesPhys : Int := 0
  AddrSizesVirt : Int := 0
  PowerMgmt : GoStr := []
  TLBN : Int := 0
  TLBPageSize : Int := 0
deriving DecidableEq, Repr

/-- The zero `CPU`, i.e. `var c CPU`. -/
def CPU.zero : CPU := {}

/-- `CPU.Name`: two-level implementer → part-table lookup. -/
def CPU.Name (c : CPU) : String :=
  if c.Impl = ARMLtd then armPartName c.Part
  else if c.Impl = Broadcom ∨ c.Impl = Cavium then broadcomPartName c.Part
  else if c.Impl = Fujitsu then fujitsuPartName c.Part
  else if c.Impl = NVIDIA then nvidiaPartName c.Part
  else if c.Impl = HiSilicon then hiSiliconPartName c.Part
  else if c.Impl = Qualcomm then qualcommPartName c.Part
  else if c.Impl = Samsung then samsungPartName c.Part
  else "generic"

/-- A miscellaneous key/value `Pair`. -/
structure Pair where
  Key : GoStr
  Value : GoStr
deriving DecidableEq, Repr

/-- The `Info` report. -/
structure Info where
  CPUs : List CPU := []
  Misc : List Pair := []
deriving DecidableEq, Repr

/-! ### The line scanner -/

/-- `dropCR` of `bufio.ScanLines`: drop one trailing `'\r'`. -/
def dropCR (l : GoStr) : GoStr :=
  match l.getLast? with
  | some '\r' => l.take (l.length - 1)
  | _ => l

def goLinesAux : List Char → List Char → List GoStr
  | [], acc => if acc = [] then [] else [dropCR acc.reverse]
  | c :: cs, acc =>
    if c = '\n' then dropCR acc.reverse :: goLinesAux cs []
    else goLinesAux cs (c :: acc)

/-- The sequence of lines a `bufio.Scanner` with `ScanLines` yields on
`buf`: split at `'\n'`, strip one optional trailing `'\r'` per line,
return a final unterminated line only when it is nonempty. -/
def goLines (buf : GoStr) : List GoStr := goLinesAux buf []

/-- The per-key dispatch of `scanProc`'s `switch`: `some` of the updated
accumulator for a recognized key, `none` for the `default` branch. -/
def setField (k v : GoStr) (c : CPU) : Option CPU :=
  if k = gs "processor" then some { c with Proc := atoi v }
  else if k = gs "BogoMIPS" ∨ k = gs "bogomips" then some { c with BogoMIPS := atof v }
  else if k = gs "Features" then some { c with Features := splitSpace v }
  else if k = gs "CPU implementer" then some { c with Impl := ((atoi v).emod (2 ^ 8)).toNat }
  else if k = gs "CPU architecture" then some { c with Arch := atoi v }
  else if k = gs "CPU variant" then some { c with Variant := atoi v }
  else if k = gs "CPU part" then some { c with Part := ((atoi v).emod (2 ^ 16)).toNat }
  else if k = gs "CPU revision" ∨ k = gs "stepping" then some { c with Rev := atoi v }
  else if k = gs "model name" then some { c with ModelName := v }
  else if k = gs "vendor_id" then some { c with VendorID := v }
  else if k = gs "cpu family" then some { c with Family := atoi v }
  else if k = gs "model" then some { c with Model := atoi v }
  else if k = gs "microcode" then some { c with Microcode := atoi v }
  else if k = gs "cpu MHz" then some { c with Freq := atof v }
  else if k = gs "cache size" then some { c with Cache := { c.Cache with L2 := parseSize v } }
  else if k = gs "physical id" then some { c with PhysID := atoi v }
  else if k = gs "siblings" then some { c with Siblings := atoi v }
  else if k = gs "core id" then some { c with CoreID := atoi v }
  else if k = gs "cpu cores" then some { c with Cores := atoi v }
  else if k = gs "apicid" then some { c with APICID := atoi v }
  else if k = gs "initial apicid" then some { c with InitAPICID := atoi v }
  else if k = gs "fpu" then some { c with FPU := parseBool v }
  else if k = gs "fpu_exception" then some { c with FPUExceptions := parseBool v }
  else if k = gs "cpuid level" then some { c with CPUIDLevel := atoi v }
  else if k = gs "wp" then some { c with WP := parseBool v }
  else if k = gs "flags" then some { c with Features := splitSpace v }
  else if k = gs "bugs" then some { c with Bugs := splitSpace v }
  else if k = gs "clflush size" then some { c with Cache := { c.Cache with Flush := atoi v } }
  else if k = gs "cache_alignment" then some { c with Cache := { c.Cache with Alignment := atoi v } }
  else if k = gs "address sizes" then
    some { c with AddrSizesPhys := (parseAddrSizes v).1, AddrSizesVirt := (parseAddrSizes v).2 }
  else if k = gs "power management" then some { c with PowerMgmt := v }
  else if k = gs "TLB size" then
    some { c with TLBN := (parseTLB v).1, TLBPageSize := (parseTLB v).2 }
  else none

/-- One iteration of `scanProc`'s loop on state (report built so far,
accumulator `c`).  An empty key appends the accumulator to `CPUs` and
leaves `c` untouched (the source never resets `c`); a recognized key
updates a field of `c`; anything else appends a `Pair` to `Misc`. -/
def scanStep (st : Info × CPU) (line : GoStr) : Info × CPU :=
  let kv := split line
  if kv.1 = [] then ({ st.1 with CPUs := st.1.CPUs ++ [st.2] }, st.2)
  else
    match setField kv.1 kv.2 st.2 with
    | some c => (st.1, c)
    | none => ({ st.1 with Misc := st.1.Misc ++ [⟨kv.1, kv.2⟩] }, st.2)

/-- Insert `x` into `l` before the first element it is `lt`-below:
exactly where an insertion sort with a strict `less` leaves it. -/
def insertLt (lt : α → α → Bool) (x : α) : List α → List α
  | [] => [x]
  | y :: ys => if lt x y then x :: y :: ys else y :: insertLt lt x ys

/-- Model of `sort.Slice` with comparison `lt`: an insertion sort.
This is the exact algorithm Go runs for slices of fewer than 12
elements (both the pre-1.19 quicksort and the current pdqsort fall back
to insertion sort below that length); for longer slices it is one
admissible result, `sort.Slice` being documented as not stable. -/
def sortSlice (lt : α → α → Bool) (l : List α) : List α :=
  l.foldl (fun acc x => insertLt lt x acc) []

/-- The `less` closure for `o.CPUs`. -/
def cpuLess (a b : CPU) : Bool := a.Proc < b.Proc

/-- Go's `<` on strings: lexicographic byte order, which on valid UTF-8
agrees with lexicographic code-point order. -/
def ltStr : GoStr → GoStr → Bool
  | [], [] => false
  | [], _ :: _ => true
  | _ :: _, [] => false
  | a :: as, b :: bs =>
    if a.toNat < b.toNat then true
    else if b.toNat < a.toNat then false
    else ltStr as bs

/-- The `less` closure for `o.Misc`. -/
def pairLess (a b : Pair) : Bool := ltStr a.Key b.Key

/-- `scanProc`: scan `buf` line by line starting from report `o`, then
sort `CPUs` by `Proc` and `Misc` by `Key`. -/
def scanProc (o : Info) (buf : GoStr) : Info :=
  let r := (goLines buf).foldl scanStep (o, CPU.zero)
  { CPUs := sortSlice cpuLess r.1.CPUs, Misc := sortSlice pairLess r.1.Misc }

/-! ### Value functions and predicates used to state the claims -/

/-- Value of a digit string in base `base` on top of accumulator `n`,
mirroring the accumulation `n = n*base + d` of the parse loop. -/
def valFromB (base n : Nat) (ds : GoStr) : Nat :=
  ds.foldl (fun a c => a * base + (goDigit c).getD 0) n

/-- Numeric value of a decimal digit string. -/
def decVal (ds : GoStr) : Nat := valFromB 10 0 ds

/-- Numeric value of a hexadecimal digit string. -/
def hexVal (ds : GoStr) : Nat := valFromB 16 0 ds

/-- `c` is a valid digit for `base` (and not the underscore, which the
base-0 loop treats separately). -/
def isBaseDigit (base : Nat) (c : Char) : Bool :=
  c != '_' &&
    (match goDigit c with
     | some d => decide (d < base)
     | none => false)

/-- A canonical decimal numeral: nonempty, all decimal digits, no
leading zero (except the numeral `0` itself). -/
def canonDec (ds : GoStr) : Prop :=
  ds ≠ [] ∧ (∀ c ∈ ds, isBaseDigit 10 c = true) ∧ (ds.head? = some '0' → ds = ['0'])

instance (ds : GoStr) : Decidable (canonDec ds) := by
  unfold canonDec; infer_instance

/-- The part codes each implementer's table knows, read off the
`case` lists of the per-vendor `*PartName` functions. -/
def knownParts (impl : Nat) : List Nat :=
  if impl = ARMLtd then
    [0x926, 0xb02, 0xb36, 0xb56, 0xb76, 0xc08, 0xc09, 0xc0f, 0xc20, 0xc23,
     0xc24, 0xd22, 0xd02, 0xd04, 0xd03, 0xd05, 0xd07, 0xd08, 0xd09, 0xd0a,
     0xd0b, 0xd0d, 0xd41, 0xd44, 0xd4c, 0xd0c, 0xd49, 0xd40, 0x23, 0x22]
  else if impl = Broadcom ∨ impl = Cavium then [0x516, 0xaf, 0xa1]
  else if impl = Fujitsu then [0x001]
  else if impl = NVIDIA then [0x004]
  else if impl = HiSilicon then [0xd01]
  else if impl = Qualcomm then
    [0x06f, 0x201, 0x205, 0x211, 0x800, 0x801, 0x802, 0x803, 0x804, 0x805,
     0xc00, 0xc01]
  else []

/-! ### Lemmas: the integer parser -/

theorem wrap64_eq_of_lt {x : Int} (h0 : 0 ≤ x) (h1 : x < 2 ^ 63) : wrap64 x = x := by
  unfold wrap64
  rw [Int.emod_eq_of_lt (by omega) (by omega)]
  omega

theorem isBaseDigit_iff (base : Nat) (c : Char) :
    isBaseDigit base c = true ↔ c ≠ '_' ∧ ∃ d, goDigit c = some d ∧ d < base := by
  unfold isBaseDigit
  cases h : goDigit c <;> simp [h]

theorem valFromB_le (base : Nat) (hb : 1 ≤ base) (n : Nat) (ds : GoStr) :
    n ≤ valFromB base n ds := by
  induction ds generalizing n with
  | nil => simp [valFromB]
  | cons c cs ih =>
    have h1 : n ≤ n * base + (goDigit c).getD 0 := by nlinarith
    calc n ≤ n * base + (goDigit c).getD 0 := h1
    _ ≤ valFromB base (n * base + (goDigit c).getD 0) cs := ih _
    _ = valFromB base n (c :: cs) := rfl

theorem puLoop_clean (base : Nat) (hb : 1 ≤ base) (base0 : Bool) (ds : GoStr)
    (hds : ∀ c ∈ ds, isBaseDigit base c = true) (n : Nat)
    (hbound : valFromB base n ds ≤ 2 ^ 64 - 1) :
    puLoop base base0 (2 ^ 64 - 1) ((2 ^ 64 - 1) / base + 1) ds n false
      = (valFromB base n ds, true, false) := by
  induction ds generalizing n with
  | nil => simp [puLoop, valFromB]
  | cons c cs ih =>
    obtain ⟨hne, d, hd, hdb⟩ := (isBaseDigit_iff base c).mp (hds c (by simp))
    have hval : valFromB base n (c :: cs) = valFromB base (n * base + d) cs := by
      simp [valFromB, hd]
    have hmon : n * base + d ≤ valFromB base (n * base + d) cs :=
      valFromB_le base hb _ cs
    have hbound2 : valFromB base (n * base + d) cs ≤ 2 ^ 64 - 1 := hval ▸ hbound
    have hcut : ¬ ((2 ^ 64 - 1) / base + 1 ≤ n) := by
      intro hcontra
      have h2 : n * base ≤ 2 ^ 64 - 1 := by omega
      have h3 : n ≤ (2 ^ 64 - 1) / base := (Nat.le_div_iff_mul_le (by omega)).mpr h2
      omega
    have hn1 : ¬ (2 ^ 64 - 1 < n * base + d) := by omega
    rw [hval, ← ih (fun c hc => hds c (List.mem_cons_of_mem _ hc)) (n * base + d) hbound2]
    simp only [puLoop, hd]
    rw [if_neg (fun h => hne h.1), if_neg (by omega), if_neg hcut, if_neg hn1]

theorem parseUint0_digits (base : Nat) (hb : 1 ≤ base) (s tail : GoStr) (hs : s ≠ [])
    (hpre : goBasePrefix s = (base, tail)) (htail : ∀ c ∈ tail, isBaseDigit base c = true)
    (hbound : valFromB base 0 tail ≤ 2 ^ 64 - 1) :
    parseUint0 s = valFromB base 0 tail := by
  unfold parseUint0
  rw [if_neg hs, hpre]
  dsimp only
  rw [puLoop_clean base hb true tail htail 0 hbound]
  simp

theorem goBasePrefix_nonzeroHead (c : Char) (s : GoStr) (hc : c ≠ '0') :
    goBasePrefix (c :: s) = (10, c :: s) := by
  simp [goBasePrefix, hc]

theorem goBasePrefix_hex (c : Char) (s : GoStr) :
    goBasePrefix ('0' :: 'x' :: c :: s) = (16, c :: s) := by
  have hx : lowerC 'x' = 'x' := by decide
  simp [goBasePrefix, hx]

theorem atoi_decimal (ds : GoStr) (h : canonDec ds) (hb : decVal ds < 2 ^ 63) :
    atoi ds = (decVal ds : Int) := by
  obtain ⟨hne, hdig, hzero⟩ := h
  by_cases h0 : ds.head? = some '0'
  · rw [hzero h0]
    decide
  · obtain ⟨c, cs, rfl⟩ := List.exists_cons_of_ne_nil hne
    have hc : c ≠ '0' := by
      intro hcc
      exact h0 (by simp [hcc])
    have hpu : parseUint0 (c :: cs) = valFromB 10 0 (c :: cs) :=
      parseUint0_digits 10 (by omega) _ _ (by simp)
        (goBasePrefix_nonzeroHead c cs hc) hdig (by unfold decVal at hb; omega)
    unfold atoi decVal
    rw [hpu]
    exact wrap64_eq_of_lt (by positivity) (by exact_mod_cast hb)

theorem atoi_hex (hs : GoStr) (hne : hs ≠ []) (hdig : ∀ c ∈ hs, isBaseDigit 16 c = true)
    (hb : hexVal hs < 2 ^ 63) : atoi ('0' :: 'x' :: hs) = (hexVal hs : Int) := by
  obtain ⟨c, cs, rfl⟩ := List.exists_cons_of_ne_nil hne
  have hpu : parseUint0 ('0' :: 'x' :: c :: cs) = valFromB 16 0 (c :: cs) :=
    parseUint0_digits 16 (by omega) _ _ (by simp)
      (goBasePrefix_hex c cs) hdig (by unfold hexVal at hb; omega)
  unfold atoi hexVal
  rw [hpu]
  exact wrap64_eq_of_lt (by positivity) (by exact_mod_cast hb)

theorem puLoop_badHead (base : Nat) (base0 : Bool) (mv co : Nat) (c : Char) (s : GoStr)
    (hgd : goDigit c = none) (hu : c ≠ '_') (n : Nat) :
    puLoop base base0 mv co (c :: s) n false = (0, false, false) := by
  simp only [puLoop, hgd]
  rw [if_neg (fun h => hu h.1)]

theorem atoi_badHead (c : Char) (s : GoStr) (hgd : goDigit c = none) (hu : c ≠ '_')
    (h0 : c ≠ '0') : atoi (c :: s) = 0 := by
  unfold atoi parseUint0
  rw [if_neg (by simp), goBasePrefix_nonzeroHead c s h0]
  dsimp only
  rw [puLoop_badHead 10 true _ _ c s hgd hu 0]
  simp [wrap64]

/-! ### Lemmas: substring search and suffixes -/

theorem findIdx?_append_none (p : Char → Bool) (xs ys : GoStr)
    (hx : ∀ c ∈ xs, p c = false) :
    (xs ++ ys).findIdx? p = (ys.findIdx? p).map (· + xs.length) := by
  rw [List.findIdx?_append, List.findIdx?_eq_none_iff.mpr hx]
  rfl

theorem firstIdxOfSub_cons (sep : GoStr) (c : Char) (cs : GoStr) :
    firstIdxOfSub sep (c :: cs) =
      if sep.isPrefixOf (c :: cs) then some 0
      else (firstIdxOfSub sep cs).map (· + 1) := rfl

theorem firstIdxOfSub_append (sep xs ys : GoStr) (h : Char) (t : GoStr)
    (hsep : sep = h :: t) (hx : h ∉ xs) :
    firstIdxOfSub sep (xs ++ ys) = (firstIdxOfSub sep ys).map (· + xs.length) := by
  induction xs with
  | nil =>
    cases hfy : firstIdxOfSub sep ys <;> simp [hfy]
  | cons c cs ih =>
    have hch : (h == c) = false := by
      simp only [beq_eq_false_iff_ne]
      intro hc
      exact hx (by simp [hc])
    have hnp : sep.isPrefixOf (c :: (cs ++ ys)) = false := by
      rw [hsep]
      simp [List.isPrefixOf, hch]
    rw [List.cons_append, firstIdxOfSub_cons, hnp]
    simp only [Bool.false_eq_true, if_false]
    rw [ih (fun hm => hx (List.mem_cons_of_mem _ hm))]
    cases hfy : firstIdxOfSub sep ys with
    | none => simp
    | some v =>
      simp
      omega

theorem firstIdxOfSub_boundary (sep xs ys : GoStr) (h : Char) (t : GoStr)
    (hsep : sep = h :: t) (hx : h ∉ xs) (c : Char) (cs : GoStr) (hys : ys = c :: cs)
    (hpre : sep.isPrefixOf ys = true) :
    firstIdxOfSub sep (xs ++ ys) = some xs.length := by
  rw [firstIdxOfSub_append sep xs ys h t hsep hx, hys]
  have hp : List.isPrefixOf sep (c :: cs) = true := by rw [← hys]; exact hpre
  rw [firstIdxOfSub_cons, if_pos hp]
  simp

theorem hasSuffixL_append (suf xs : GoStr) : hasSuffixL suf (xs ++ suf) = true := by
  simp [hasSuffixL]

theorem trimSuffixL_append (suf xs : GoStr) : trimSuffixL suf (xs ++ suf) = xs := by
  unfold trimSuffixL
  rw [if_pos (hasSuffixL_append suf xs)]
  have hl : (xs ++ suf).length - suf.length = xs.length := by simp
  rw [hl, List.take_left' rfl]

theorem hasSuffixL_last (c : Char) (xs : GoStr) (d : Char) :
    hasSuffixL [c] (xs ++ [d]) = (c == d) := by
  unfold hasSuffixL
  by_cases h : c = d
  · subst h
    rw [beq_self_eq_true]
    simp
  · have : ¬ [c] <:+ xs ++ [d] := by
      rw [← List.reverse_prefix]
      simp only [List.reverse_append, List.reverse_cons, List.reverse_nil,
        List.nil_append, List.singleton_append]
      intro hp
      rcases hp with ⟨u, hu⟩
      cases hu
      exact h rfl
    rw [Bool.eq_iff_iff]
    simp [List.isSuffixOf_iff_suffix, this, h]

/-! ### Lemmas: digit strings -/

theorem isBaseDigit10_toNat (c : Char) (h : isBaseDigit 10 c = true) :
    48 ≤ c.toNat ∧ c.toNat ≤ 57 := by
  obtain ⟨-, d, hd, hdb⟩ := (isBaseDigit_iff 10 c).mp h
  unfold goDigit at hd
  split_ifs at hd with h1 h2
  · simp only [Bool.and_eq_true, decide_eq_true_eq] at h1
    obtain ⟨ha, hb⟩ := h1
    constructor
    · exact ha
    · exact hb
  · simp only [Bool.and_eq_true, decide_eq_true_eq] at h2
    obtain ⟨ha, -⟩ := h2
    have hge : 97 ≤ (lowerC c).toNat := ha
    injection hd with hd
    omega

theorem decDigit_ne (c : Char) (h : isBaseDigit 10 c = true) (d : Char)
    (hd : d.toNat < 48 ∨ 57 < d.toNat) : c ≠ d := by
  obtain ⟨h1, h2⟩ := isBaseDigit10_toNat c h
  intro hc
  subst hc
  omega

/-! ### Lemmas: insertion sort -/

theorem mem_insertLt {lt : α → α → Bool} {x z : α} {l : List α}
    (h : z ∈ insertLt lt x l) : z = x ∨ z ∈ l := by
  induction l with
  | nil => simpa [insertLt] using h
  | cons y ys ih =>
    unfold insertLt at h
    by_cases hlt : lt x y = true
    · rw [if_pos hlt] at h
      rcases List.mem_cons.mp h with h | h
      · exact Or.inl h
      · exact Or.inr h
    · rw [if_neg hlt] at h
      rcases List.mem_cons.mp h with h | h
      · exact Or.inr (by simp [h])
      · rcases ih h with h | h
        · exact Or.inl h
        · exact Or.inr (List.mem_cons_of_mem _ h)

theorem pairwise_insertLt (lt : α → α → Bool)
    (htrans : ∀ x y z, lt x y = true → lt z y = false → lt z x = false)
    (hasym : ∀ a b, lt a b = true → lt b a = false)
    (x : α) (l : List α) (hl : l.Pairwise (fun a b => lt b a = false)) :
    (insertLt lt x l).Pairwise (fun a b => lt b a = false) := by
  induction l with
  | nil => simp [insertLt]
  | cons y ys ih =>
    obtain ⟨hy, hys⟩ := List.pairwise_cons.mp hl
    unfold insertLt
    by_cases hlt : lt x y = true
    · rw [if_pos hlt]
      refine List.pairwise_cons.mpr ⟨?_, hl⟩
      intro z hz
      rcases List.mem_cons.mp hz with rfl | hz
      · exact hasym x z hlt
      · exact htrans x y z hlt (hy z hz)
    · rw [if_neg hlt]
      refine List.pairwise_cons.mpr ⟨?_, ih hys⟩
      intro z hz
      rcases mem_insertLt hz with rfl | hz
      · exact Bool.not_eq_true _ ▸ hlt
      · exact hy z hz

theorem pairwise_sortSlice (lt : α → α → Bool)
    (htrans : ∀ x y z, lt x y = true → lt z y = false → lt z x = false)
    (hasym : ∀ a b, lt a b = true → lt b a = false) (l : List α) :
    (sortSlice lt l).Pairwise (fun a b => lt b a = false) := by
  suffices h : ∀ acc : List α, acc.Pairwise (fun a b => lt b a = false) →
      (l.foldl (fun acc x => insertLt lt x acc) acc).Pairwise
        (fun a b => lt b a = false) from h [] (by simp)
  induction l with
  | nil => intro acc hacc; simpa using hacc
  | cons x xs ih =>
    intro acc hacc
    exact ih _ (pairwise_insertLt lt htrans hasym x acc hacc)

theorem length_insertLt (lt : α → α → Bool) (x : α) (l : List α) :
    (insertLt lt x l).length = l.length + 1 := by
  induction l with
  | nil => rfl
  | cons y ys ih =>
    unfold insertLt
    by_cases hlt : lt x y = true
    · simp [hlt]
    · simp [hlt, ih]

theorem length_sortSlice (lt : α → α → Bool) (l : List α) :
    (sortSlice lt l).length = l.length := by
  have h : ∀ l2 acc : List α,
      (l2.foldl (fun acc x => insertLt lt x acc) acc).length = acc.length + l2.length := by
    intro l2
    induction l2 with
    | nil => intro acc; simp
    | cons x xs ih =>
      intro acc
      rw [List.foldl_cons, ih, length_insertLt]
      simp only [List.length_cons]
      omega
  simpa [sortSlice] using h l []

/-! ### Lemmas: the string orders used by the final sorts -/

theorem ltStr_irrefl (s : GoStr) : ltStr s s = false := by
  induction s with
  | nil => rfl
  | cons c cs ih => simp [ltStr, ih]

theorem ltStr_trans (x y z : GoStr) (h1 : ltStr x y = true) (h2 : ltStr y z = true) :
    ltStr x z = true := by
  induction x generalizing y z with
  | nil =>
    cases y with
    | nil => simp [ltStr] at h1
    | cons b bs =>
      cases z with
      | nil => simp [ltStr] at h2
      | cons c cs => simp [ltStr]
  | cons a as ih =>
    cases y with
    | nil => simp [ltStr] at h1
    | cons b bs =>
      cases z with
      | nil => simp [ltStr] at h2
      | cons c cs =>
        simp only [ltStr] at h1 h2 ⊢
        split_ifs at h1 h2 ⊢ <;> first | rfl | omega | exact ih bs cs h1 h2

theorem ltStr_asymmL (a b : GoStr) (h : ltStr a b = true) : ltStr b a = false := by
  by_contra hc
  have hba : ltStr b a = true := by simpa using hc
  have := ltStr_trans a b a h hba
  rw [ltStr_irrefl] at this
  exact Bool.false_ne_true this

theorem ltStr_negtrans (x y z : GoStr) (h1 : ltStr x y = true) (h2 : ltStr z y = false) :
    ltStr z x = false := by
  by_contra hc
  have hzx : ltStr z x = true := by simpa using hc
  rw [ltStr_trans z x y hzx h1] at h2
  simp at h2

theorem cpuLess_asymm (a b : CPU) (h : cpuLess a b = true) : cpuLess b a = false := by
  simp only [cpuLess, decide_eq_true_eq] at h
  simp only [cpuLess, decide_eq_false_iff_not]
  omega

theorem cpuLess_negtrans (x y z : CPU) (h1 : cpuLess x y = true) (h2 : cpuLess z y = false) :
    cpuLess z x = false := by
  simp only [cpuLess, decide_eq_true_eq] at h1
  simp only [cpuLess, decide_eq_false_iff_not] at h2 ⊢
  omega

theorem pairLess_asymm (a b : Pair) (h : pairLess a b = true) : pairLess b a = false :=
  ltStr_asymmL a.Key b.Key h

theorem pairLess_negtrans (x y z : Pair) (h1 : pairLess x y = true)
    (h2 : pairLess z y = false) : pairLess z x = false :=
  ltStr_negtrans x.Key y.Key z.Key h1 h2

/-! ### Lemmas: the scanner loop -/

theorem scanStep_separator (st : Info × CPU) (line : GoStr)
    (h : (split line).1 = []) :
    scanStep st line = ({ st.1 with CPUs := st.1.CPUs ++ [st.2] }, st.2) := by
  unfold scanStep
  rw [if_pos h]

theorem scanStep_CPUs (st : Info × CPU) (l : GoStr) :
    (scanStep st l).1.CPUs =
      if (split l).1 = [] then st.1.CPUs ++ [st.2] else st.1.CPUs := by
  unfold scanStep
  by_cases h : (split l).1 = []
  · simp [h]
  · rw [if_neg h, if_neg h]
    cases hsf : setField (split l).1 (split l).2 st.2 <;> simp [hsf]

theorem foldl_scanStep_CPUs_length (lines : List GoStr) (st : Info × CPU) :
    ((lines.foldl scanStep st).1.CPUs).length =
      st.1.CPUs.length + lines.countP (fun l => decide ((split l).1 = [])) := by
  induction lines generalizing st with
  | nil => simp
  | cons l ls ih =>
    rw [List.foldl_cons, ih, List.countP_cons]
    have hc := scanStep_CPUs st l
    by_cases h : (split l).1 = []
    · rw [hc, if_pos h]
      simp [h]
      omega
    · rw [hc, if_neg h]
      simp [h]

/-! ### Lemmas: the composite decoders -/

theorem decDigit_not_space (ds : GoStr) (hds : ∀ c ∈ ds, isBaseDigit 10 c = true) :
    ∀ c ∈ ds, (fun c => decide (c = ' ')) c = false := by
  intro c hc
  simp only [decide_eq_false_iff_not]
  exact decDigit_ne c (hds c hc) ' ' (Or.inl (by decide))

theorem parseSize_atSpace (ds rest : GoStr)
    (hsp : ∀ c ∈ ds, (fun c => decide (c = ' ')) c = false) :
    parseSize (ds ++ (' ' :: rest)) =
      (if rest = gs "KB" then wrap64 (atoi ds * 1024)
       else if rest = gs "MB" then wrap64 (atoi ds * (1024 * 1024))
       else 0) := by
  have hfind : (ds ++ (' ' :: rest)).findIdx? (· = ' ') = some ds.length := by
    rw [findIdx?_append_none _ ds _ hsp]
    simp
  have hlen : ¬ (ds.length = (ds ++ (' ' :: rest)).length) := by
    simp
  have htake : (ds ++ (' ' :: rest)).take ds.length = ds := List.take_left' rfl
  have hdrop : (ds ++ (' ' :: rest)).drop (ds.length + 1) = rest := by
    have hre : ds ++ (' ' :: rest) = (ds ++ [' ']) ++ rest := by simp
    rw [hre, List.drop_left' (by simp)]
  unfold parseSize
  rw [hfind]
  dsimp only
  rw [if_neg hlen, htake, hdrop]

/-- C6: for every canonical numeral `n`, `"<n> KB"` decodes to `n*1024`
and `"<n> MB"` to `n*1024*1024` (as long as the product fits a 64-bit
int); an input with no space yields `0`, and an input whose text after
the first space is neither `"KB"` nor `"MB"` (including an empty unit)
yields `0`. -/
theorem parseSize_claim :
    (∀ ds : GoStr, canonDec ds → (decVal ds : Int) * 1024 < 2 ^ 63 →
       parseSize (ds ++ gs " KB") = (decVal ds : Int) * 1024)
  ∧ (∀ ds : GoStr, canonDec ds → (decVal ds : Int) * (1024 * 1024) < 2 ^ 63 →
       parseSize (ds ++ gs " MB") = (decVal ds : Int) * (1024 * 1024))
  ∧ (∀ s : GoStr, s.findIdx? (· = ' ') = none → parseSize s = 0)
  ∧ (∀ s : GoStr, ∀ i : Nat, s.findIdx? (· = ' ') = some i →
       s.drop (i + 1) ≠ gs "KB" → s.drop (i + 1) ≠ gs "MB" → parseSize s = 0) := by
  refine ⟨?_, ?_, ?_, ?_⟩
  · intro ds hds hb
    have hnum : decVal ds < 2 ^ 63 := by
      have h1 : (decVal ds : Int) ≤ (decVal ds : Int) * 1024 := by
        nlinarith [Int.natCast_nonneg (decVal ds)]
      have h2 : (decVal ds : Int) < 2 ^ 63 := lt_of_le_of_lt h1 hb
      exact_mod_cast h2
    rw [show ds ++ gs " KB" = ds ++ (' ' :: gs "KB") from rfl,
      parseSize_atSpace ds (gs "KB") (decDigit_not_space ds hds.2.1), if_pos rfl,
      atoi_decimal ds hds hnum]
    exact wrap64_eq_of_lt (by positivity) hb
  · intro ds hds hb
    have hnum : decVal ds < 2 ^ 63 := by
      have h1 : (decVal ds : Int) ≤ (decVal ds : Int) * (1024 * 1024) := by
        nlinarith [Int.natCast_nonneg (decVal ds)]
      have h2 : (decVal ds : Int) < 2 ^ 63 := lt_of_le_of_lt h1 hb
      exact_mod_cast h2
    rw [show ds ++ gs " MB" = ds ++ (' ' :: gs "MB") from rfl,
      parseSize_atSpace ds (gs "MB") (decDigit_not_space ds hds.2.1),
      if_neg (by decide), if_pos rfl, atoi_decimal ds hds hnum]
    exact wrap64_eq_of_lt (by positivity) hb
  · intro s hnone
    unfold parseSize
    rw [hnone]
  · intro s i hfind hkb hmb
    unfold parseSize
    rw [hfind]
    dsimp only
    by_cases hi : i = s.length
    · rw [if_pos hi]
    · rw [if_neg hi, if_neg hkb, if_neg hmb]

/-- Witness for `parseSize_claim` at concrete inputs. -/
theorem parseSize_claim_witness :
    canonDec (gs "512") ∧ parseSize (gs "512 KB") = 512 * 1024 ∧
      parseSize (gs "512 xB") = 0 := by
  refine ⟨by decide, ?_, ?_⟩
  · have h := parseSize_claim.1 (gs "512") (by decide) (by decide)
    exact h.trans (by decide)
  · exact parseSize_claim.2.2.2 (gs "512 xB") 3 (by decide) (by decide) (by decide)

/-- C5: `"<p> bits physical, <v> bits virtual"` with canonical numerals
decodes to exactly `(p, v)`; an input with no `", "` separator, with the
separator at the very end, or missing either literal suffix yields
`(0, 0)`. -/
theorem parseAddrSizes_claim :
    (∀ ds es : GoStr, canonDec ds → canonDec es →
       decVal ds < 2 ^ 63 → decVal es < 2 ^ 63 →
       parseAddrSizes (ds ++ gs " bits physical" ++ gs ", " ++ es ++ gs " bits virtual")
         = ((decVal ds : Int), (decVal es : Int)))
  ∧ (∀ s : GoStr, firstIdxOfSub (gs ", ") s = none → parseAddrSizes s = (0, 0))
  ∧ (∀ s : GoStr, ∀ i : Nat, firstIdxOfSub (gs ", ") s = some i →
       i + 2 = s.length → parseAddrSizes s = (0, 0))
  ∧ (∀ s : GoStr, ∀ i : Nat, firstIdxOfSub (gs ", ") s = some i → ¬ (i + 2 = s.length) →
       hasSuffixL (gs " bits physical") (s.take i) = false → parseAddrSizes s = (0, 0))
  ∧ (∀ s : GoStr, ∀ i : Nat, firstIdxOfSub (gs ", ") s = some i → ¬ (i + 2 = s.length) →
       hasSuffixL (gs " bits virtual") (s.drop (i + 2)) = false →
       parseAddrSizes s = (0, 0)) := by
  refine ⟨?_, ?_, ?_, ?_, ?_⟩
  · intro ds es hds hes hbd hbe
    have hnc : ',' ∉ ds ++ gs " bits physical" := by
      intro hm
      rcases List.mem_append.mp hm with hm | hm
      · exact decDigit_ne ',' (hds.2.1 ',' hm) ',' (Or.inl (by decide)) rfl
      · exact absurd hm (by decide)
    have hshape : ds ++ gs " bits physical" ++ gs ", " ++ es ++ gs " bits virtual"
        = (ds ++ gs " bits physical") ++ (',' :: ' ' :: (es ++ gs " bits virtual")) := by
      show ds ++ gs " bits physical" ++ (',' :: ' ' :: []) ++ es ++ gs " bits virtual" = _
      simp [List.append_assoc]
    rw [hshape]
    have hfirst := firstIdxOfSub_boundary (gs ", ") (ds ++ gs " bits physical")
        (',' :: ' ' :: (es ++ gs " bits virtual")) ',' [' '] rfl hnc ','
        (' ' :: (es ++ gs " bits virtual")) rfl
        (by show List.isPrefixOf (',' :: ' ' :: []) _ = true; simp [List.isPrefixOf])
    unfold parseAddrSizes
    dsimp only
    rw [hfirst]
    dsimp only
    rw [show (gs ", ").length = 2 from rfl]
    have hlen : ¬ ((ds ++ gs " bits physical").length + 2
        = ((ds ++ gs " bits physical")
            ++ (',' :: ' ' :: (es ++ gs " bits virtual"))).length) := by
      simp only [List.length_append, List.length_cons,
        show (gs " bits virtual").length = 13 from rfl]
      omega
    rw [if_neg hlen, List.take_left' rfl, hasSuffixL_append]
    rw [if_neg (by simp)]
    rw [trimSuffixL_append]
    have hre : (ds ++ gs " bits physical") ++ (',' :: ' ' :: (es ++ gs " bits virtual"))
        = ((ds ++ gs " bits physical") ++ [',', ' ']) ++ (es ++ gs " bits virtual") := by
      simp
    have hdl : ((ds ++ gs " bits physical") ++ [',', ' ']).length
        = (ds ++ gs " bits physical").length + 2 := by
      simp only [List.length_append, List.length_cons, List.length_nil]
    rw [hre, List.drop_left' hdl, hasSuffixL_append]
    rw [if_neg (by simp)]
    rw [trimSuffixL_append, atoi_decimal ds hds hbd, atoi_decimal es hes hbe]
  · intro s hnone
    unfold parseAddrSizes
    dsimp only
    rw [hnone]
  · intro s i hfind hlen
    unfold parseAddrSizes
    dsimp only
    rw [hfind]
    dsimp only
    rw [show (gs ", ").length = 2 from rfl, if_pos hlen]
  · intro s i hfind hlen hsuf
    unfold parseAddrSizes
    dsimp only
    rw [hfind]
    dsimp only
    rw [show (gs ", ").length = 2 from rfl, if_neg hlen, if_pos (by simp [hsuf])]
  · intro s i hfind hlen hsuf
    unfold parseAddrSizes
    dsimp only
    rw [hfind]
    dsimp only
    rw [show (gs ", ").length = 2 from rfl, if_neg hlen]
    by_cases hp : hasSuffixL (gs " bits physical") (s.take i) = true
    · rw [if_neg (by simp [hp]), if_pos (by simp [hsuf])]
    · rw [if_pos (by simpa using hp)]

/-- Witness for `parseAddrSizes_claim` at concrete inputs. -/
theorem parseAddrSizes_claim_witness :
    canonDec (gs "40") ∧ canonDec (gs "48") ∧
      parseAddrSizes (gs "40 bits physical, 48 bits virtual") = (40, 48) ∧
      parseAddrSizes (gs "40 bits physical 48 bits virtual") = (0, 0) := by
  refine ⟨by decide, by decide, ?_, ?_⟩
  · have h := parseAddrSizes_claim.1 (gs "40") (gs "48") (by decide) (by decide)
      (by decide) (by decide)
    exact h.trans (by decide)
  · exact parseAddrSizes_claim.2.1 (gs "40 bits physical 48 bits virtual") (by decide)

theorem parseTLB_pos_core (ds ks : GoStr) (u : Char) (mult : Nat)
    (hds : canonDec ds) (hks : canonDec ks) (hbd : decVal ds < 2 ^ 63)
    (hbk : (decVal ks : Int) * (mult : Int) < 2 ^ 63)
    (hKifK : hasSuffixL (gs "K") (((ds ++ [' ']) ++ ks) ++ [u])
      = (if mult = 1024 then true else false))
    (hMifM : mult ≠ 1024 →
      hasSuffixL (gs "M") (((ds ++ [' ']) ++ ks) ++ [u]) = true)
    (hmult : mult = 1024 ∨ mult = 1024 * 1024) :
    parseTLB ((((ds ++ [' ']) ++ ks) ++ [u]) ++ gs " pages")
      = ((decVal ds : Int), (decVal ks : Int) * (mult : Int)) := by
  have hX : hasSuffixL (gs " pages") ((((ds ++ [' ']) ++ ks) ++ [u]) ++ gs " pages")
      = true := hasSuffixL_append _ _
  unfold parseTLB
  rw [trimSuffixL_append, hX]
  rw [if_neg (by simp)]
  dsimp only
  have hlen1 : ((((ds ++ [' ']) ++ ks) ++ [u]).length - 1) = ((ds ++ [' ']) ++ ks).length := by
    simp
  have htake1 : ((((ds ++ [' ']) ++ ks) ++ [u]).take
      (((((ds ++ [' ']) ++ ks) ++ [u])).length - 1)) = (ds ++ [' ']) ++ ks := by
    rw [hlen1, List.take_left' rfl]
  have hsp : ∀ c ∈ ds, (fun c => decide (c = ' ')) c = false :=
    decDigit_not_space ds hds.2.1
  have hs2 : (ds ++ [' ']) ++ ks = ds ++ (' ' :: ks) := by simp
  have hfind : ((ds ++ [' ']) ++ ks).findIdx? (· = ' ') = some ds.length := by
    rw [hs2, findIdx?_append_none _ ds _ hsp]
    simp
  have hilen : ¬ (ds.length = ((ds ++ [' ']) ++ ks).length) := by
    simp only [List.length_append, List.length_cons, List.length_nil]
    omega
  have htk : ((ds ++ [' ']) ++ ks).take ds.length = ds := by
    rw [hs2, List.take_left' rfl]
  have hdr : ((ds ++ [' ']) ++ ks).drop (ds.length + 1) = ks := by
    rw [hs2, show ds ++ (' ' :: ks) = (ds ++ [' ']) ++ ks from by simp,
      List.drop_left' (by simp)]
  rcases hmult with hm | hm
  · rw [hKifK]
    rw [if_pos (by simp [hm])]
    dsimp only
    rw [htake1, hfind]
    dsimp only
    rw [if_neg hilen, htk, hdr, atoi_decimal ds hds hbd,
      atoi_decimal ks hks (by nlinarith [Int.natCast_nonneg (decVal ks),
        (by exact_mod_cast hbk : (decVal ks : Int) * (mult : Int) < 2 ^ 63)])]
    rw [hm]
    rw [wrap64_eq_of_lt (by positivity) (by exact_mod_cast hm ▸ hbk)]
  · have hKfalse : hasSuffixL (gs "K") (((ds ++ [' ']) ++ ks) ++ [u]) = false := by
      rw [hKifK, if_neg (by omega)]
    have hMtrue := hMifM (by omega)
    rw [hKfalse]
    rw [if_neg (by simp)]
    rw [hMtrue, if_pos rfl]
    dsimp only
    rw [htake1, hfind]
    dsimp only
    rw [if_neg hilen, htk, hdr, atoi_decimal ds hds hbd,
      atoi_decimal ks hks (by nlinarith [Int.natCast_nonneg (decVal ks),
        (by exact_mod_cast hbk : (decVal ks : Int) * (mult : Int) < 2 ^ 63)])]
    rw [hm]
    rw [wrap64_eq_of_lt (by positivity) (by exact_mod_cast hm ▸ hbk)]

/-- C7: `"<n> <k>K pages"` decodes to `(n, k*1024)` and `"<n> <k>M pages"`
to `(n, k*1024*1024)` for canonical numerals (with products in 64-bit
range); missing the `" pages"` suffix, the `K`/`M` unit character, or the
space between the tokens yields `(0, 0)`. -/
theorem parseTLB_claim :
    (∀ ds ks : GoStr, canonDec ds → canonDec ks → decVal ds < 2 ^ 63 →
       (decVal ks : Int) * 1024 < 2 ^ 63 →
       parseTLB (ds ++ gs " " ++ ks ++ gs "K pages")
         = ((decVal ds : Int), (decVal ks : Int) * 1024))
  ∧ (∀ ds ks : GoStr, canonDec ds → canonDec ks → decVal ds < 2 ^ 63 →
       (decVal ks : Int) * (1024 * 1024) < 2 ^ 63 →
       parseTLB (ds ++ gs " " ++ ks ++ gs "M pages")
         = ((decVal ds : Int), (decVal ks : Int) * (1024 * 1024)))
  ∧ (∀ s : GoStr, hasSuffixL (gs " pages") s = false → parseTLB s = (0, 0))
  ∧ (∀ s : GoStr, hasSuffixL (gs " pages") s = true →
       hasSuffixL (gs "K") (trimSuffixL (gs " pages") s) = false →
       hasSuffixL (gs "M") (trimSuffixL (gs " pages") s) = false → parseTLB s = (0, 0))
  ∧ (∀ s : GoStr, hasSuffixL (gs " pages") s = true →
       ((trimSuffixL (gs " pages") s).take
           ((trimSuffixL (gs " pages") s).length - 1)).findIdx? (· = ' ') = none →
       parseTLB s = (0, 0)) := by
  refine ⟨?_, ?_, ?_, ?_, ?_⟩
  · intro ds ks hds hks hbd hbk
    have harg : ds ++ gs " " ++ ks ++ gs "K pages"
        = (((ds ++ [' ']) ++ ks) ++ ['K']) ++ gs " pages" := by
      show ds ++ [' '] ++ ks ++ ('K' :: gs " pages") = _
      simp
    rw [harg]
    have h := parseTLB_pos_core ds ks 'K' 1024 hds hks hbd
      (by exact_mod_cast hbk)
      (by show hasSuffixL ['K'] _ = _
          rw [hasSuffixL_last]
          rfl)
      (fun hc => absurd rfl hc)
      (Or.inl rfl)
    exact h.trans (by norm_num)
  · intro ds ks hds hks hbd hbk
    have harg : ds ++ gs " " ++ ks ++ gs "M pages"
        = (((ds ++ [' ']) ++ ks) ++ ['M']) ++ gs " pages" := by
      show ds ++ [' '] ++ ks ++ ('M' :: gs " pages") = _
      simp
    rw [harg]
    have h := parseTLB_pos_core ds ks 'M' (1024 * 1024) hds hks hbd
      (by exact_mod_cast hbk)
      (by show hasSuffixL ['K'] _ = _
          rw [hasSuffixL_last]
          rfl)
      (fun _ => by
        show hasSuffixL ['M'] _ = _
        rw [hasSuffixL_last]
        rfl)
      (Or.inr rfl)
    exact h.trans (by norm_num)
  · intro s hns
    unfold parseTLB
    rw [hns]
    rw [if_pos (by simp)]
  · intro s hps hK hM
    unfold parseTLB
    rw [hps, if_neg (by simp)]
    dsimp only
    rw [hK, if_neg (by simp), hM, if_neg (by simp)]
  · intro s hps hfind
    unfold parseTLB
    rw [hps, if_neg (by simp)]
    dsimp only
    by_cases hK : hasSuffixL (gs "K") (trimSuffixL (gs " pages") s) = true
    · rw [hK, if_pos rfl]
      dsimp only
      rw [hfind]
    · have hK2 : hasSuffixL (gs "K") (trimSuffixL (gs " pages") s) = false := by
        simpa using hK
      rw [hK2, if_neg (by simp)]
      by_cases hM : hasSuffixL (gs "M") (trimSuffixL (gs " pages") s) = true
      · rw [hM, if_pos rfl]
        dsimp only
        rw [hfind]
      · have hM2 : hasSuffixL (gs "M") (trimSuffixL (gs " pages") s) = false := by
          simpa using hM
        rw [hM2, if_neg (by simp)]

/-- Witness for `parseTLB_claim` at concrete inputs. -/
theorem parseTLB_claim_witness :
    canonDec (gs "1024") ∧ canonDec (gs "4") ∧
      parseTLB (gs "1024 4K pages") = (1024, 4096) ∧
      parseTLB (gs "1024 4K") = (0, 0) := by
  refine ⟨by decide, by decide, ?_, ?_⟩
  · have h := parseTLB_claim.1 (gs "1024") (gs "4") (by decide) (by decide)
      (by decide) (by decide)
    exact h.trans (by decide)
  · exact parseTLB_claim.2.2.1 (gs "1024 4K") (by decide)

/-- C8 counterexample: `"010"` is decimal text with numeric value `10`,
but the base-0 parser reads it as octal and returns `8`; and the
well-formed decimal numeral `2^64` does not return `0` (or its value):
the range error path returns `2^64 - 1`, which the `int` conversion
turns into `-1`. -/
theorem atoi_claim_cex :
    atoi (gs "010") = 8 ∧ (8 : Int) ≠ 10 ∧
      atoi (gs "18446744073709551616") = -1 ∧ (-1 : Int) ≠ 0 := by
  refine ⟨by decide, by decide, by decide, by decide⟩

/-- C8 (amended): the parser is total and never propagates an error;
canonical decimal text below `2^63` parses to its value, `0x`-prefixed
hex text below `2^63` parses to its value, text whose first character is
not a digit (and not `'0'` or `'_'`) parses to `0`, the empty string
parses to `0`; but a leading `0` selects octal (`"010"` → `8`) and an
out-of-range numeral returns `2^64-1`, i.e. `-1` as an `int`. -/
theorem atoi_claim_amended :
    (∀ ds : GoStr, canonDec ds → decVal ds < 2 ^ 63 → atoi ds = (decVal ds : Int))
  ∧ (∀ hs : GoStr, hs ≠ [] → (∀ c ∈ hs, isBaseDigit 16 c = true) →
      hexVal hs < 2 ^ 63 → atoi ('0' :: 'x' :: hs) = (hexVal hs : Int))
  ∧ (∀ c : Char, ∀ s : GoStr, goDigit c = none → c ≠ '_' → c ≠ '0' →
      atoi (c :: s) = 0)
  ∧ atoi [] = 0
  ∧ atoi (gs "010") = 8
  ∧ atoi (gs "18446744073709551616") = -1 :=
  ⟨atoi_decimal, atoi_hex, atoi_badHead, by decide, by decide, by decide⟩

/-- Witness for `atoi_claim_amended` at concrete inputs. -/
theorem atoi_claim_amended_witness :
    canonDec (gs "123") ∧ atoi (gs "123") = 123 ∧ atoi (gs "0x41") = 65 ∧
      atoi (gs "-5") = 0 := by
  refine ⟨by decide, ?_, ?_, ?_⟩
  · exact (atoi_claim_amended.1 (gs "123") (by decide) (by decide)).trans (by decide)
  · exact (atoi_claim_amended.2.1 (gs "41") (by decide) (by decide)
      (by decide)).trans (by decide)
  · exact atoi_claim_amended.2.2.1 '-' (gs "5") (by decide) (by decide) (by decide)

/-! ### The vendor/part lookup claims -/

theorem armPartName_notin (p : Nat) (h : p ∉ knownParts ARMLtd) :
    armPartName p = "generic" := by
  rw [show knownParts ARMLtd
    = [0x926, 0xb02, 0xb36, 0xb56, 0xb76, 0xc08, 0xc09, 0xc0f, 0xc20, 0xc23,
       0xc24, 0xd22, 0xd02, 0xd04, 0xd03, 0xd05, 0xd07, 0xd08, 0xd09, 0xd0a,
       0xd0b, 0xd0d, 0xd41, 0xd44, 0xd4c, 0xd0c, 0xd49, 0xd40, 0x23, 0x22] from rfl] at h
  simp only [List.mem_cons, List.mem_singleton, not_or] at h
  obtain ⟨n1, n2, n3, n4, n5, n6, n7, n8, n9, n10, n11, n12, n13, n14, n15, n16,
    n17, n18, n19, n20, n21, n22, n23, n24, n25, n26, n27, n28, n29, n30⟩ := h
  simp [armPartName, n1, n2, n3, n4, n5, n6, n7, n8, n9, n10, n11, n12, n13, n14,
    n15, n16, n17, n18, n19, n20, n21, n22, n23, n24, n25, n26, n27, n28, n29, n30]

theorem broadcomPartName_notin (p : Nat) (h : p ∉ [0x516, 0xaf, 0xa1]) :
    broadcomPartName p = "generic" := by
  simp only [List.mem_cons, List.mem_singleton, not_or] at h
  obtain ⟨n1, n2, n3⟩ := h
  simp [broadcomPartName, n1, n2, n3]

theorem fujitsuPartName_notin (p : Nat) (h : p ∉ [0x001]) :
    fujitsuPartName p = "generic" := by
  simp only [List.mem_singleton] at h
  simp [fujitsuPartName, h]

theorem nvidiaPartName_notin (p : Nat) (h : p ∉ [0x004]) :
    nvidiaPartName p = "generic" := by
  simp only [List.mem_singleton] at h
  simp [nvidiaPartName, h]

theorem hiSiliconPartName_notin (p : Nat) (h : p ∉ [0xd01]) :
    hiSiliconPartName p = "generic" := by
  simp only [List.mem_singleton] at h
  simp [hiSiliconPartName, h]

theorem qualcommPartName_notin (p : Nat)
    (h : p ∉ [0x06f, 0x201, 0x205, 0x211, 0x800, 0x801, 0x802, 0x803, 0x804,
      0x805, 0xc00, 0xc01]) : qualcommPartName p = "generic" := by
  simp only [List.mem_cons, List.mem_singleton, not_or] at h
  obtain ⟨n1, n2, n3, n4, n5, n6, n7, n8, n9, n10, n11, n12⟩ := h
  simp [qualcommPartName, n1, n2, n3, n4, n5, n6, n7, n8, n9, n10, n11, n12]

/-- C4: for every implementer code and part code, if the part is outside
the implementer's table (in particular whenever the implementer has no
table at all), `CPU.Name` resolves to exactly `"generic"`; resolution is
a total function, so it never fails or panics. -/
theorem cpuName_unknown_generic (impl part : Nat) (h : part ∉ knownParts impl) :
    CPU.Name { CPU.zero with Impl := impl, Part := part } = "generic" := by
  unfold CPU.Name
  dsimp only
  split_ifs with h1 h2 h3 h4 h5 h6 h7
  · exact armPartName_notin part (h1 ▸ h)
  · have hk : knownParts impl = [0x516, 0xaf, 0xa1] := by
      rcases h2 with rfl | rfl <;> rfl
    exact broadcomPartName_notin part (hk ▸ h)
  · have hk : knownParts impl = [0x001] := by subst h3; exact rfl
    exact fujitsuPartName_notin part (hk ▸ h)
  · have hk : knownParts impl = [0x004] := by subst h4; exact rfl
    exact nvidiaPartName_notin part (hk ▸ h)
  · have hk : knownParts impl = [0xd01] := by subst h5; exact rfl
    exact hiSiliconPartName_notin part (hk ▸ h)
  · have hk : knownParts impl = [0x06f, 0x201, 0x205, 0x211, 0x800, 0x801, 0x802,
        0x803, 0x804, 0x805, 0xc00, 0xc01] := by subst h6; exact rfl
    exact qualcommPartName_notin part (hk ▸ h)
  · rfl
  · rfl

/-- Witness for `cpuName_unknown_generic`: part `0x999` is unknown to the
ARM table, and any part under the table-less Apple implementer is
`"generic"`. -/
theorem cpuName_unknown_generic_witness :
    (0x999 ∉ knownParts ARMLtd) ∧
      CPU.Name { CPU.zero with Impl := ARMLtd, Part := 0x999 } = "generic" ∧
      (0x23 ∉ knownParts Apple) ∧
      CPU.Name { CPU.zero with Impl := Apple, Part := 0x23 } = "generic" :=
  ⟨by decide, cpuName_unknown_generic ARMLtd 0x999 (by decide),
   by decide, cpuName_unknown_generic Apple 0x23 (by decide)⟩

/-- C10: under the Apple (`'a'` = 0x61) and Intel (`'i'` = 0x69)
implementer codes, `CPU.Name` is `"generic"` for every part, including
the Firestorm/Icestorm codes 0x23/0x22, which resolve to their M1 names
only under ARM Ltd (`'A'` = 0x41). -/
theorem appleIntel_always_generic (p : Nat) :
    CPU.Name { CPU.zero with Impl := Apple, Part := p } = "generic" ∧
    CPU.Name { CPU.zero with Impl := Intel, Part := p } = "generic" ∧
    CPU.Name { CPU.zero with Impl := ARMLtd, Part := 0x23 } = "M1 Firestorm" ∧
    CPU.Name { CPU.zero with Impl := ARMLtd, Part := 0x22 } = "M1 Icestorm" := by
  refine ⟨?_, ?_, by decide, by decide⟩
  · simp [CPU.Name, Apple, ARMLtd, Broadcom, Cavium, Fujitsu, NVIDIA, HiSilicon,
      Qualcomm, Samsung]
  · simp [CPU.Name, Intel, ARMLtd, Broadcom, Cavium, Fujitsu, NVIDIA, HiSilicon,
      Qualcomm, Samsung]

/-! ### The scanner claims -/

/-- C1 counterexample: the separator line appends the accumulator but the
source never resets `c`, so the `model name` parsed for the first record
reappears in the second record, whose own lines never set it.  Under the
claim the second record's `ModelName` would be empty. -/
theorem scanProc_carryover_cex :
    ((scanProc { CPUs := [], Misc := [] }
        (gs "model name: A\n\nprocessor: 1\n\n")).CPUs.map
      (fun c => c.ModelName)) = [gs "A", gs "A"]
    ∧ (gs "A" : GoStr) ≠ [] := by
  exact ⟨by decide, by decide⟩

/-- C1 (amended): on a line with an empty key the scanner appends the
current accumulator to the CPU sequence and leaves the accumulator
unchanged — it is NOT reset, so parsed field values persist into later
records unless overwritten. -/
theorem scanStep_appends_without_reset (st : Info × CPU) (line : GoStr)
    (h : (split line).1 = []) :
    (scanStep st line).1.CPUs = st.1.CPUs ++ [st.2] ∧
      (scanStep st line).2 = st.2 ∧
      (scanStep st line).1.Misc = st.1.Misc := by
  rw [scanStep_separator st line h]
  exact ⟨rfl, rfl, rfl⟩

/-- Witness for `scanStep_appends_without_reset` at a concrete state and
line. -/
theorem scanStep_appends_without_reset_witness :
    ((split (gs "  ")).1 = []) ∧
      (scanStep ({ CPUs := [], Misc := [] }, CPU.zero) (gs "  ")).1.CPUs = [CPU.zero] := by
  refine ⟨by decide, ?_⟩
  have h := scanStep_appends_without_reset ({ CPUs := [], Misc := [] }, CPU.zero)
    (gs "  ") (by decide)
  exact h.1.trans (by decide)

/-- C2 counterexample: two records with the same processor index but
different model names; swapping them in the input swaps them in the
output, so the report is not deterministically ordered regardless of
input order. -/
theorem scanProc_input_order_dependent_cex :
    ((scanProc { CPUs := [], Misc := [] }
        (gs "processor: 0\nmodel name: A\n\nprocessor: 0\nmodel name: B\n\n")).CPUs.map
      (fun c => c.ModelName)) = [gs "A", gs "B"]
    ∧ ((scanProc { CPUs := [], Misc := [] }
        (gs "processor: 0\nmodel name: B\n\nprocessor: 0\nmodel name: A\n\n")).CPUs.map
      (fun c => c.ModelName)) = [gs "B", gs "A"]
    ∧ scanProc { CPUs := [], Misc := [] }
        (gs "processor: 0\nmodel name: A\n\nprocessor: 0\nmodel name: B\n\n")
      ≠ scanProc { CPUs := [], Misc := [] }
        (gs "processor: 0\nmodel name: B\n\nprocessor: 0\nmodel name: A\n\n") := by
  exact ⟨by decide, by decide, by decide⟩

/-- C2 (amended): after all lines are consumed the CPU sequence is sorted
by `Proc` ascending and the pair sequence is sorted by `Key` ascending
(`ltStr` is Go's string order); the relative order of entries with equal
keys depends on input order, so the output is not input-order
independent. -/
theorem scanProc_sorted (o : Info) (buf : GoStr) :
    ((scanProc o buf).CPUs).Pairwise (fun a b => a.Proc ≤ b.Proc) ∧
    ((scanProc o buf).Misc).Pairwise (fun a b => ltStr b.Key a.Key = false) := by
  unfold scanProc
  dsimp only
  constructor
  · have h := pairwise_sortSlice cpuLess cpuLess_negtrans cpuLess_asymm
      (((goLines buf).foldl scanStep (o, CPU.zero)).1.CPUs)
    exact h.imp (fun hab => by simpa [cpuLess, not_lt] using hab)
  · exact pairwise_sortSlice pairLess pairLess_negtrans pairLess_asymm _

/-- C3 counterexample: a line with no colon does not yield an empty
value — the whole trimmed line becomes the value (`i+1 = 0 < len(s)` in
the source guard). -/
theorem split_noColon_cex :
    split (gs "hello") = ([], gs "hello") ∧ (gs "hello" : GoStr) ≠ [] := by
  exact ⟨by decide, by decide⟩

/-- C3 (amended): a line containing a colon splits into the trimmed text
before the first colon as key and the trimmed text after it as value
(the value is empty when the colon is last, which coincides with the
empty suffix trimmed); a line with NO colon yields an empty key and the
whole line trimmed as the value — not an empty value — and the scanner
still treats every empty-key line as a record separator. -/
theorem split_claim_amended :
    (∀ pre post : GoStr, (∀ c ∈ pre, c ≠ ':') →
       split (pre ++ ':' :: post) = (trimSpace pre, trimSpace post))
  ∧ (∀ s : GoStr, (∀ c ∈ s, c ≠ ':') →
       split s = ([], trimSpace s) ∧
         ∀ st : Info × CPU, (scanStep st s).1.CPUs = st.1.CPUs ++ [st.2]) := by
  constructor
  · intro pre post h
    have hpre : ∀ c ∈ pre, (fun c => decide (c = ':')) c = false := fun c hc => by
      simpa using h c hc
    have hf : (pre ++ ':' :: post).findIdx? (· = ':') = some pre.length := by
      rw [findIdx?_append_none _ pre _ hpre]
      simp
    have htake : (pre ++ ':' :: post).take pre.length = pre := List.take_left' rfl
    have hdrop : (pre ++ ':' :: post).drop (pre.length + 1) = post := by
      rw [show pre ++ ':' :: post = (pre ++ [':']) ++ post from by simp,
        List.drop_left' (by simp)]
    unfold split
    rw [hf]
    dsimp only
    rw [htake, hdrop]
    cases post with
    | nil =>
      rw [if_neg (by simp)]
      rfl
    | cons c cs =>
      rw [if_pos (by simp only [List.length_append, List.length_cons]; omega)]
  · intro s h
    have hf : s.findIdx? (· = ':') = none :=
      List.findIdx?_eq_none_iff.mpr (fun c hc => by simpa using h c hc)
    have hsplit : split s = ([], trimSpace s) := by
      unfold split
      rw [hf]
      cases s with
      | nil => rfl
      | cons c cs => simp
    refine ⟨hsplit, fun st => ?_⟩
    rw [scanStep_separator st s (by rw [hsplit])]

/-- Witness for `split_claim_amended` at concrete lines with and without
a colon. -/
theorem split_claim_amended_witness :
    (∀ c ∈ gs "key ", c ≠ ':') ∧
      split (gs "key : value ") = (gs "key", gs "value") ∧
      (∀ c ∈ gs "NoColonHere", c ≠ ':') ∧
      split (gs "NoColonHere") = ([], gs "NoColonHere") := by
  refine ⟨by decide, ?_, by decide, ?_⟩
  · exact (split_claim_amended.1 (gs "key ") (gs " value ") (by decide)).trans (by decide)
  · exact ((split_claim_amended.2 (gs "NoColonHere") (by decide)).1).trans (by decide)

/-- C9: every CPU record in the report corresponds to one separator
(empty-key) line: the number of appended records equals the number of
separator lines, so a trailing record with no following blank line is
never flushed.  The second conjunct shows it concretely: a buffer whose
only record is unterminated produces no CPU records. -/
theorem scanProc_only_terminated_records :
    (∀ o : Info, ∀ buf : GoStr,
      ((scanProc o buf).CPUs).length =
        o.CPUs.length + (goLines buf).countP (fun l => decide ((split l).1 = [])))
  ∧ (scanProc { CPUs := [], Misc := [] }
      (gs "processor: 7\nBogoMIPS: 48.00")).CPUs = [] := by
  constructor
  · intro o buf
    unfold scanProc
    dsimp only
    rw [length_sortSlice, foldl_scanStep_CPUs_length]
  · decide

end Sysinfo
